import Mathlib

/-!
Verification of the label-translation step of LinguaAnimae
(`notebooks/04_translate_labels.ipynb`) and of the verse-record data model.

The Python code is shallowly embedded: `str` becomes `String` (a `List Char`
under the hood), `dict.get` becomes an association-list lookup, a pandas cell
that may hold `NaN` becomes `Option String`, a DataFrame becomes a `List Row`,
and the directories the notebook touches become association lists from file
names to tables.  A raised exception (e.g. `AttributeError` from calling
`.strip()` on a float `NaN`) becomes `Except.error ()`.
-/

namespace LinguaAnimae

/-! ### Python string primitives

Executable counterparts of the Python string operations the notebook uses:
`str.strip`, `str.lower`, `str.split(";")`, `";".join`, `str.replace`.
All labels in the data are ASCII or Latin-1, where these agree with Python's
Unicode-aware versions. -/

/-- Python `str.isspace` characters that can occur here (ASCII whitespace). -/
def pyIsSpace (c : Char) : Bool :=
  c = ' ' || c = '\t' || c = '\n' || c = '\r' || c = '\x0b' || c = '\x0c'

/-- Removes trailing `pyIsSpace` characters (Python `str.rstrip()`). -/
def dropTrailing : List Char → List Char
  | [] => []
  | c :: cs =>
    match dropTrailing cs with
    | [] => if pyIsSpace c then [] else [c]
    | r => c :: r

/-- `str.strip()` on the underlying character list: leading and trailing
whitespace removed. -/
def stripChars (l : List Char) : List Char :=
  dropTrailing (l.dropWhile pyIsSpace)

/-- Python `str.strip()`. -/
def pyStrip (s : String) : String := ⟨stripChars s.data⟩

/-- Python `str.lower()` (ASCII case folding; accented lowercase letters are
already lowercase and are left alone, as in Python). -/
def pyLower (s : String) : String := ⟨s.data.map Char.toLower⟩

/-- `str.split(sep)` for a one-character separator, on character lists.
`acc` holds the chars of the current field in reverse. -/
def splitCharAux (sep : Char) : List Char → List Char → List (List Char)
  | [], acc => [acc.reverse]
  | c :: cs, acc =>
    if c = sep then acc.reverse :: splitCharAux sep cs []
    else splitCharAux sep cs (c :: acc)

/-- Python `s.split(sep)` for a one-character separator; like Python,
`"".split(";") = [""]` and separators delimit possibly-empty fields. -/
def pySplit (sep : Char) (s : String) : List String :=
  (splitCharAux sep s.data []).map fun l => ⟨l⟩

/-- `sep.join(l)` on character lists. -/
def joinChars (sep : Char) : List (List Char) → List Char
  | [] => []
  | [l] => l
  | l :: ls => l ++ sep :: joinChars sep ls

/-- Python `sep.join(l)` for a one-character separator. -/
def pyJoin (sep : Char) (l : List String) : String :=
  ⟨joinChars sep (l.map String.data)⟩

/-- Does `pat` occur at the head of `l`? -/
def startsWithList : List Char → List Char → Bool
  | [], _ => true
  | _ :: _, [] => false
  | p :: ps, c :: cs => p = c && startsWithList ps cs

/-- Python `str.replace(pat, repl)` (all occurrences, left to right), with a
fuel argument for structural recursion; one unit of fuel is spent per consumed
character, so `l.length` fuel always suffices. -/
def replaceFuel (pat repl : List Char) : Nat → List Char → List Char
  | _, [] => []
  | 0, l => l
  | fuel + 1, c :: cs =>
    if startsWithList pat (c :: cs) then
      repl ++ replaceFuel pat repl fuel (cs.drop (pat.length - 1))
    else
      c :: replaceFuel pat repl fuel cs

/-- Python `s.replace(pat, repl)` for a nonempty `pat`. -/
def pyReplace (s pat repl : String) : String :=
  ⟨replaceFuel pat.data repl.data s.data.length s.data⟩

/-- Python `dict.get(key)`: first binding of `key` in the association list. -/
def dictLookup : List (String × String) → String → Option String
  | [], _ => none
  | (k, v) :: m, key => if key = k then some v else dictLookup m key

/-! ### The two translation dictionaries and functions
(`04_translate_labels.ipynb`, cell "Define Emotion + Theme Translations") -/

/-- `THEME_MAP`: English theme tags to Spanish. -/
def THEME_MAP : List (String × String) :=
  [("love", "amor"), ("faith", "fe"), ("hope", "esperanza"),
   ("forgiveness", "perdón"), ("fear", "miedo")]

/-- `EMOTION_MAP`: English emotion labels to Spanish. -/
def EMOTION_MAP : List (String × String) :=
  [("joy", "Alegría"), ("sadness", "Tristeza"), ("anger", "Ira"),
   ("fear", "Miedo"), ("trust", "Confianza"), ("surprise", "Sorpresa")]

/-- The per-token body of `translate_themes`:
`THEME_MAP.get(label.strip(), label.strip())`. -/
def themeToken (label : String) : String :=
  (dictLookup THEME_MAP (pyStrip label)).getD (pyStrip label)

/-- `translate_themes(theme_str)`: `NaN` (modelled as `none`) becomes `""`;
otherwise each `";"`-separated token is stripped and looked up in `THEME_MAP`
(defaulting to the stripped token), and the results are `";"`-joined. -/
def translate_themes (theme_str : Option String) : String :=
  match theme_str with
  | none => ""
  | some s => pyJoin ';' ((pySplit ';' s).map themeToken)

/-- `translate_emotion(emotion)`: look up the stripped, lowercased string in
`EMOTION_MAP`, returning the original (unstripped) string when absent. -/
def translate_emotion (emotion : String) : String :=
  (dictLookup EMOTION_MAP (pyLower (pyStrip emotion))).getD emotion

/-- `translate_emotion` applied to a pandas cell: on a `NaN` cell (`none`)
Python raises `AttributeError` (`float` has no `.strip`), modelled as
`Except.error ()`; there is no missing-value guard. -/
def translate_emotion_cell : Option String → Except Unit String
  | none => .error ()
  | some s => .ok (translate_emotion s)

/-! ### Tables, rows and the directory model

A row of a cleaned/labeled CSV.  The cleaning step's output carries the
scraper columns (chapter, verse, subtitle, text, source_url) plus the added
`verse_id`, `theme` and `emotion` columns; `emotion` and `theme` cells may be
missing (`NaN`), hence `Option String`. -/
structure Row where
  verse_id : String
  chapter : Nat
  verse : Nat
  subtitle : String
  text : String
  source_url : String
  emotion : Option String
  theme : Option String
deriving DecidableEq, Repr

/-- A directory: file names mapped to tables, most recent write first. -/
abbrev Dir : Type := List (String × List Row)

/-- Reading file `name` from a directory (`pd.read_csv` when it succeeds,
`none` when `Path.exists()` is false). -/
def dirRead : Dir → String → Option (List Row)
  | [], _ => none
  | (n, t) :: d, name => if name = n then some t else dirRead d name

/-- Writing a file (`df.to_csv`): the new version shadows any older one. -/
def dirWrite (d : Dir) (name : String) (t : List Row) : Dir :=
  (name, t) :: d

/-- `BIBLE_EN` from the notebook's configuration cell. -/
def BIBLE_EN : String := "bible_kjv"

/-- `BIBLE_ES` from the notebook's configuration cell. -/
def BIBLE_ES : String := "bible_rv60"

/-- `EN_LABELED_DIR = BASE_DIR / "labeled" / BIBLE_EN / "emotion_theme"`. -/
def EN_LABELED_DIR : String := "data/labeled/" ++ BIBLE_EN ++ "/emotion_theme"

/-- `ES_PROCESSED_DIR = BASE_DIR / "processed" / BIBLE_ES`. -/
def ES_PROCESSED_DIR : String := "data/processed/" ++ BIBLE_ES

/-- `ES_OUTPUT_DIR = BASE_DIR / "labeled" / BIBLE_ES / "emotion_theme"`. -/
def ES_OUTPUT_DIR : String := "data/labeled/" ++ BIBLE_ES ++ "/emotion_theme"

/-- The state the translate-and-merge loop touches: the three directories
named by `EN_LABELED_DIR`, `ES_PROCESSED_DIR` and `ES_OUTPUT_DIR`. -/
structure FS where
  enLabeled : Dir
  esProcessed : Dir
  esLabeled : Dir

/-- `file.name.replace("_emotion_theme.csv", "_cleaned.csv")`. -/
def esName (name : String) : String :=
  pyReplace name "_emotion_theme.csv" "_cleaned.csv"

/-- `Series.apply` for a fallible function: fails as soon as one cell fails. -/
def mapExcept (f : α → Except Unit β) : List α → Except Unit (List β)
  | [] => .ok []
  | a :: as => do
    let b ← f a
    let bs ← mapExcept f as
    .ok (b :: bs)

/-- Positional assignment of the translated `emotion` and `theme` columns onto
the Spanish rows (`df_out = df_es.copy(); df_out["emotion"] = ...;
df_out["theme"] = ...`); both DataFrames carry the default range index, so
label alignment is positional. -/
def applyCols : List Row → List String → List String → List Row
  | r :: rs, e :: es, t :: ts =>
    { r with emotion := some e, theme := some t } :: applyCols rs es ts
  | _, _, _ => []

/-- The merge body for one matched pair of tables: translate the English
`emotion` column (which raises on a `NaN` cell), translate the English `theme`
column, and put both onto a copy of the Spanish table. -/
def mergeLabels (df_en df_es : List Row) : Except Unit (List Row) := do
  let emotions ← mapExcept translate_emotion_cell (df_en.map Row.emotion)
  .ok (applyCols df_es emotions ((df_en.map Row.theme).map translate_themes))

/-- One iteration of the loop body for file `name` holding `df_en`: skip when
the corresponding `_cleaned.csv` is missing, skip when the row counts differ,
otherwise merge and write the output (an uncaught exception propagates). -/
def stepFile (esProcessed esLabeled : Dir) (name : String) (df_en : List Row) :
    Except Unit Dir :=
  match dirRead esProcessed (esName name) with
  | none => .ok esLabeled
  | some df_es =>
    if df_en.length ≠ df_es.length then .ok esLabeled
    else do
      let out ← mergeLabels df_en df_es
      .ok (dirWrite esLabeled name out)

/-- The loop over the listed English labeled files, threading the output
directory. -/
def runFiles (esProcessed : Dir) : List (String × List Row) → Dir →
    Except Unit Dir
  | [], esLabeled => .ok esLabeled
  | (name, df_en) :: rest, esLabeled => do
    let esLabeled' ← stepFile esProcessed esLabeled name df_en
    runFiles esProcessed rest esLabeled'

/-- The whole translate-and-merge step: iterate over every file of the English
labeled directory; only the Spanish labeled output directory is written. -/
def runStep (fs : FS) : Except Unit FS :=
  (runFiles fs.esProcessed fs.enLabeled fs.esLabeled).map fun lab =>
    { enLabeled := fs.enLabeled, esProcessed := fs.esProcessed,
      esLabeled := lab }

/-! ### Helper lemmas on the string primitives -/

theorem head_dropWhile_false {p : Char → Bool} {l cs : List Char} {c : Char}
    (h : l.dropWhile p = c :: cs) : p c = false := by
  induction l with
  | nil => simp at h
  | cons a as ih =>
    rw [List.dropWhile_cons] at h
    by_cases hp : p a
    · simp [hp] at h
      exact ih h
    · simp [hp] at h
      rcases h with ⟨rfl, rfl⟩
      simpa using hp

theorem dropTrailing_shape (c : Char) (cs : List Char) :
    dropTrailing (c :: cs) = [] ∨ ∃ t, dropTrailing (c :: cs) = c :: t := by
  rw [dropTrailing]
  rcases h : dropTrailing cs with _ | ⟨a, r⟩
  · by_cases hc : pyIsSpace c
    · left; simp [hc]
    · right; exact ⟨[], by simp [hc]⟩
  · right; exact ⟨a :: r, rfl⟩

theorem dropTrailing_idem (l : List Char) :
    dropTrailing (dropTrailing l) = dropTrailing l := by
  induction l with
  | nil => rfl
  | cons c cs ih =>
    rw [dropTrailing]
    rcases h : dropTrailing cs with _ | ⟨a, r⟩
    · by_cases hc : pyIsSpace c
      · simp [hc, dropTrailing]
      · simp [hc, dropTrailing]
    · rw [h] at ih
      rw [dropTrailing, ih]

theorem mem_dropTrailing {x : Char} {l : List Char} (h : x ∈ dropTrailing l) :
    x ∈ l := by
  induction l with
  | nil => simp [dropTrailing] at h
  | cons c cs ih =>
    rw [dropTrailing] at h
    rcases hd : dropTrailing cs with _ | ⟨a, r⟩
    · rw [hd] at h
      by_cases hc : pyIsSpace c
      · simp [hc] at h
      · simp [hc] at h
        simp [h]
    · rw [hd] at h
      rcases List.mem_cons.mp h with rfl | hx
      · exact List.mem_cons_self _ _
      · exact List.mem_cons_of_mem _ (ih (hd ▸ hx))

theorem stripChars_idem (l : List Char) :
    stripChars (stripChars l) = stripChars l := by
  unfold stripChars
  have h1 : (dropTrailing (l.dropWhile pyIsSpace)).dropWhile pyIsSpace =
      dropTrailing (l.dropWhile pyIsSpace) := by
    rcases hd : l.dropWhile pyIsSpace with _ | ⟨c, cs⟩
    · simp [dropTrailing]
    · rcases dropTrailing_shape c cs with h | ⟨t, h⟩
      · simp [h]
      · rw [h, List.dropWhile_cons, head_dropWhile_false hd]
        simp
  rw [h1, dropTrailing_idem]

theorem mem_stripChars {x : Char} {l : List Char} (h : x ∈ stripChars l) :
    x ∈ l := by
  unfold stripChars at h
  exact (List.dropWhile_sublist pyIsSpace).mem (mem_dropTrailing h)

theorem data_pyStrip (s : String) : (pyStrip s).data = stripChars s.data := rfl

theorem pyStrip_idem (s : String) : pyStrip (pyStrip s) = pyStrip s :=
  congrArg String.mk (stripChars_idem s.data)

theorem splitCharAux_ne_nil (sep : Char) (cs acc : List Char) :
    splitCharAux sep cs acc ≠ [] := by
  induction cs generalizing acc with
  | nil => simp [splitCharAux]
  | cons c cs ih =>
    rw [splitCharAux]
    by_cases h : c = sep
    · simp [h]
    · simp only [if_neg h]
      exact ih (c :: acc)

theorem splitCharAux_no_sep {sep : Char} (cs : List Char) {acc : List Char}
    (hacc : sep ∉ acc) : ∀ l ∈ splitCharAux sep cs acc, sep ∉ l := by
  induction cs generalizing acc with
  | nil =>
    intro l hl
    simp only [splitCharAux, List.mem_singleton] at hl
    subst hl
    simpa using hacc
  | cons c cs ih =>
    intro l hl
    rw [splitCharAux] at hl
    by_cases h : c = sep
    · simp only [if_pos h, List.mem_cons] at hl
      rcases hl with rfl | hl
      · simpa using hacc
      · exact ih (by simp) l hl
    · rw [if_neg h] at hl
      refine ih ?_ l hl
      intro hc
      rcases List.mem_cons.mp hc with h' | h'
      · exact h h'.symm
      · exact hacc h'

theorem pySplit_no_sep {sep : Char} {s t : String} (h : t ∈ pySplit sep s) :
    sep ∉ t.data := by
  unfold pySplit at h
  rcases List.mem_map.mp h with ⟨l, hl, rfl⟩
  exact splitCharAux_no_sep s.data (by simp) l hl

theorem splitCharAux_sep_free {sep : Char} {l : List Char} (h : sep ∉ l)
    (acc : List Char) : splitCharAux sep l acc = [acc.reverse ++ l] := by
  induction l generalizing acc with
  | nil => simp [splitCharAux]
  | cons c cs ih =>
    have hc : ¬c = sep := fun hc => h (by simp [hc])
    rw [splitCharAux, if_neg hc, ih (fun hm => h (List.mem_cons_of_mem _ hm))]
    simp

theorem splitCharAux_append_sep {sep : Char} {l : List Char} (h : sep ∉ l)
    (rest acc : List Char) :
    splitCharAux sep (l ++ sep :: rest) acc =
      (acc.reverse ++ l) :: splitCharAux sep rest [] := by
  induction l generalizing acc with
  | nil => simp [splitCharAux]
  | cons c cs ih =>
    have hc : ¬c = sep := fun hc => h (by simp [hc])
    rw [List.cons_append, splitCharAux, if_neg hc,
      ih (fun hm => h (List.mem_cons_of_mem _ hm))]
    simp

theorem splitCharAux_joinChars {sep : Char} {ls : List (List Char)}
    (hne : ls ≠ []) (h : ∀ l ∈ ls, sep ∉ l) :
    splitCharAux sep (joinChars sep ls) [] = ls := by
  induction ls with
  | nil => exact absurd rfl hne
  | cons l ls ih =>
    rcases ls with _ | ⟨l', ls'⟩
    · rw [joinChars, splitCharAux_sep_free (h l (by simp)) []]
      simp
    · rw [show joinChars sep (l :: l' :: ls') =
          l ++ sep :: joinChars sep (l' :: ls') from rfl,
        splitCharAux_append_sep (h l (by simp)) _ []]
      rw [ih (by simp) (fun x hx => h x (List.mem_cons_of_mem _ hx))]
      simp

theorem pySplit_pyJoin {sep : Char} {l : List String} (hne : l ≠ [])
    (h : ∀ x ∈ l, sep ∉ x.data) : pySplit sep (pyJoin sep l) = l := by
  unfold pySplit pyJoin
  rw [show (String.mk (joinChars sep (l.map String.data))).data =
      joinChars sep (l.map String.data) from rfl]
  rw [splitCharAux_joinChars (by simpa using hne)
    (by intro x hx; rcases List.mem_map.mp hx with ⟨s, hs, rfl⟩; exact h s hs)]
  rw [List.map_map]
  exact List.map_id'' (fun s => rfl) l

/-! ### Dictionary lemmas -/

theorem dictLookup_mem {m : List (String × String)} {key v : String}
    (h : dictLookup m key = some v) : ∃ k, (k, v) ∈ m := by
  induction m with
  | nil => simp [dictLookup] at h
  | cons p m ih =>
    rcases p with ⟨k, w⟩
    rw [dictLookup] at h
    by_cases hk : key = k
    · rw [if_pos hk] at h
      exact ⟨k, by simp [Option.some_inj.mp h]⟩
    · rw [if_neg hk] at h
      rcases ih h with ⟨k', hk'⟩
      exact ⟨k', List.mem_cons_of_mem _ hk'⟩

/-- No Spanish value of `EMOTION_MAP` is (after strip and lowercase) a key of
`EMOTION_MAP`, so each value is a fixed point of `translate_emotion`. -/
theorem emotion_value_fixed :
    ∀ p ∈ EMOTION_MAP, translate_emotion p.2 = p.2 := by decide

/-- Each Spanish value of `THEME_MAP` is already stripped, is not a key of
`THEME_MAP`, contains no `';'`, and is nonempty. -/
theorem theme_value_facts :
    ∀ p ∈ THEME_MAP, pyStrip p.2 = p.2 ∧
      dictLookup THEME_MAP p.2 = none ∧ ';' ∉ p.2.data ∧ p.2 ≠ "" := by
  decide

theorem themeToken_strip (label : String) :
    pyStrip (themeToken label) = themeToken label := by
  unfold themeToken
  rcases h : dictLookup THEME_MAP (pyStrip label) with _ | v
  · simpa using pyStrip_idem label
  · rcases dictLookup_mem h with ⟨k, hk⟩
    simpa using (theme_value_facts (k, v) hk).1

theorem themeToken_lookup_none (label : String) :
    dictLookup THEME_MAP (themeToken label) = none := by
  unfold themeToken
  rcases h : dictLookup THEME_MAP (pyStrip label) with _ | v
  · simpa using h
  · rcases dictLookup_mem h with ⟨k, hk⟩
    simpa using (theme_value_facts (k, v) hk).2.1

theorem themeToken_idem (label : String) :
    themeToken (themeToken label) = themeToken label := by
  calc themeToken (themeToken label)
      = (dictLookup THEME_MAP (pyStrip (themeToken label))).getD
          (pyStrip (themeToken label)) := rfl
    _ = (dictLookup THEME_MAP (themeToken label)).getD (themeToken label) :=
        by rw [themeToken_strip]
    _ = themeToken label := by rw [themeToken_lookup_none]; rfl

theorem themeToken_no_sep {label : String} (h : ';' ∉ label.data) :
    ';' ∉ (themeToken label).data := by
  unfold themeToken
  rcases hl : dictLookup THEME_MAP (pyStrip label) with _ | v
  · simp only [Option.getD_none]
    exact fun hm => h (mem_stripChars hm)
  · rcases dictLookup_mem hl with ⟨k, hk⟩
    simpa using (theme_value_facts (k, v) hk).2.2.1

theorem themeToken_ne_empty {label : String} (h : pyStrip label ≠ "") :
    themeToken label ≠ "" := by
  unfold themeToken
  rcases hl : dictLookup THEME_MAP (pyStrip label) with _ | v
  · simpa using h
  · rcases dictLookup_mem hl with ⟨k, hk⟩
    simpa using (theme_value_facts (k, v) hk).2.2.2

theorem pySplit_ne_nil (sep : Char) (s : String) : pySplit sep s ≠ [] := by
  unfold pySplit
  simpa using splitCharAux_ne_nil sep s.data []

theorem translate_themes_some (s : String) :
    translate_themes (some s) = pyJoin ';' ((pySplit ';' s).map themeToken) :=
  rfl

theorem translate_themes_idem (s : String) :
    translate_themes (some (translate_themes (some s))) =
      translate_themes (some s) := by
  rw [translate_themes_some s]
  have hne : (pySplit ';' s).map themeToken ≠ [] := by
    simpa using pySplit_ne_nil ';' s
  have hsep : ∀ x ∈ (pySplit ';' s).map themeToken, ';' ∉ x.data := by
    intro x hx
    rcases List.mem_map.mp hx with ⟨t, ht, rfl⟩
    exact themeToken_no_sep (pySplit_no_sep ht)
  rw [translate_themes_some, pySplit_pyJoin hne hsep, List.map_map]
  congr 1
  refine List.map_congr_left ?_
  intro a _
  exact themeToken_idem a

theorem translate_emotion_idem (s : String) :
    translate_emotion (translate_emotion s) = translate_emotion s := by
  rcases h : dictLookup EMOTION_MAP (pyLower (pyStrip s)) with _ | v
  · have h1 : translate_emotion s = s := by simp [translate_emotion, h]
    rw [h1]
    exact h1
  · have h1 : translate_emotion s = v := by simp [translate_emotion, h]
    rw [h1]
    rcases dictLookup_mem h with ⟨k, hk⟩
    exact emotion_value_fixed (k, v) hk

/-! ### Lemmas on the merge body -/

theorem bindOk {β γ : Type} (x : β) (k : β → Except Unit γ) :
    (Except.ok x : Except Unit β) >>= k = k x := rfl

theorem bindErr {β γ : Type} (e : Unit) (k : β → Except Unit γ) :
    (Except.error e : Except Unit β) >>= k = Except.error e := rfl

theorem mapExcept_ok_length {α β : Type} {f : α → Except Unit β} {l : List α}
    {l' : List β} (h : mapExcept f l = .ok l') : l'.length = l.length := by
  induction l generalizing l' with
  | nil =>
    rw [mapExcept] at h
    injection h with h1
    rw [← h1]
    rfl
  | cons a as ih =>
    rw [mapExcept] at h
    rcases hfa : f a with e | b <;> rw [hfa] at h
    · rw [bindErr] at h
      exact Except.noConfusion h
    · rw [bindOk] at h
      rcases hrest : mapExcept f as with e | bs <;> rw [hrest] at h
      · rw [bindErr] at h
        exact Except.noConfusion h
      · rw [bindOk] at h
        injection h with h1
        rw [← h1]
        simp [ih hrest]

theorem mapExcept_ok_getElem {α β : Type} {f : α → Except Unit β} {l : List α}
    {l' : List β} (h : mapExcept f l = .ok l') :
    ∀ i (hi : i < l.length) (hi' : i < l'.length), f l[i] = .ok l'[i] := by
  induction l generalizing l' with
  | nil => intro i hi; simp at hi
  | cons a as ih =>
    rw [mapExcept] at h
    rcases hfa : f a with e | b <;> rw [hfa] at h
    · rw [bindErr] at h
      exact Except.noConfusion h
    · rw [bindOk] at h
      rcases hrest : mapExcept f as with e | bs <;> rw [hrest] at h
      · rw [bindErr] at h
        exact Except.noConfusion h
      · rw [bindOk] at h
        injection h with h1
        subst h1
        intro i hi hi'
        cases i with
        | zero => simpa using hfa
        | succ n =>
          simp only [List.getElem_cons_succ]
          exact ih hrest n (by simpa using hi) (by simpa using hi')

theorem mapExcept_all_some {l : List (Option String)}
    (h : ∀ x ∈ l, x.isSome) :
    ∃ l', mapExcept translate_emotion_cell l = .ok l' := by
  induction l with
  | nil => exact ⟨[], rfl⟩
  | cons a as ih =>
    rcases ha : a with _ | s
    · have := h a (by simp)
      rw [ha] at this
      simp at this
    · rcases ih (fun x hx => h x (List.mem_cons_of_mem _ hx)) with ⟨l', hl'⟩
      refine ⟨translate_emotion s :: l', ?_⟩
      rw [mapExcept]
      rw [show translate_emotion_cell (some s) =
        .ok (translate_emotion s) from rfl, bindOk, hl', bindOk]

theorem mapExcept_none_error {l : List (Option String)}
    (h : none ∈ l) : mapExcept translate_emotion_cell l = .error () := by
  induction l with
  | nil => simp at h
  | cons a as ih =>
    rw [mapExcept]
    rcases ha : a with _ | s
    · rw [show translate_emotion_cell none = .error () from rfl, bindErr]
    · rw [show translate_emotion_cell (some s) =
        .ok (translate_emotion s) from rfl, bindOk]
      have hmem : none ∈ as := by
        rcases List.mem_cons.mp h with h' | h'
        · rw [ha] at h'
          exact Option.noConfusion h'
        · exact h'
      rw [ih hmem, bindErr]

theorem applyCols_nil (es ts : List String) : applyCols [] es ts = [] := rfl

theorem applyCols_length {rs : List Row} {es ts : List String}
    (h1 : es.length = rs.length) (h2 : ts.length = rs.length) :
    (applyCols rs es ts).length = rs.length := by
  induction rs generalizing es ts with
  | nil => rw [applyCols_nil]
  | cons r rs ih =>
    rcases es with _ | ⟨e, es⟩
    · simp at h1
    · rcases ts with _ | ⟨t, ts⟩
      · simp at h2
      · rw [applyCols]
        simp only [List.length_cons]
        rw [ih (by simpa using h1) (by simpa using h2)]

theorem applyCols_getElem {rs : List Row} {es ts : List String} {i : Nat}
    (hi : i < rs.length) (hie : i < es.length) (hit : i < ts.length)
    (hio : i < (applyCols rs es ts).length) :
    (applyCols rs es ts)[i] =
      { rs[i] with emotion := some es[i], theme := some ts[i] } := by
  induction rs generalizing es ts i with
  | nil => simp at hi
  | cons r rs ih =>
    rcases es with _ | ⟨e, es⟩
    · simp at hie
    · rcases ts with _ | ⟨t, ts⟩
      · simp at hit
      · cases i with
        | zero => rfl
        | succ n =>
          have hstep : applyCols (r :: rs) (e :: es) (t :: ts) =
              { r with emotion := some e, theme := some t } ::
                applyCols rs es ts := rfl
          have hn : n < rs.length := by simpa using hi
          have hne : n < es.length := by simpa using hie
          have hnt : n < ts.length := by simpa using hit
          have hno : n < (applyCols rs es ts).length := by
            rw [hstep] at hio
            simpa using hio
          exact ih hn hne hnt hno

theorem mergeLabels_ok_elim {df_en df_es out : List Row}
    (h : mergeLabels df_en df_es = .ok out) :
    ∃ emos, mapExcept translate_emotion_cell (df_en.map Row.emotion) = .ok emos
      ∧ out = applyCols df_es emos ((df_en.map Row.theme).map translate_themes)
    := by
  rw [mergeLabels] at h
  rcases he : mapExcept translate_emotion_cell (df_en.map Row.emotion)
    with e | emos <;> rw [he] at h
  · rw [bindErr] at h
    exact Except.noConfusion h
  · rw [bindOk] at h
    injection h with h1
    exact ⟨emos, rfl, h1.symm⟩

theorem mergeLabels_length {df_en df_es out : List Row}
    (hlen : df_en.length = df_es.length)
    (h : mergeLabels df_en df_es = .ok out) : out.length = df_es.length := by
  rcases mergeLabels_ok_elim h with ⟨emos, he, rfl⟩
  have h1 : emos.length = df_es.length := by
    rw [mapExcept_ok_length he]
    simpa using hlen
  have h2 : ((df_en.map Row.theme).map translate_themes).length =
      df_es.length := by simpa using hlen
  exact applyCols_length h1 h2

theorem mergeLabels_getElem_emotion {df_en df_es out : List Row}
    (hlen : df_en.length = df_es.length)
    (h : mergeLabels df_en df_es = .ok out) {i : Nat}
    (hi : i < df_en.length) (hio : i < out.length) {s : String}
    (hs : df_en[i].emotion = some s) :
    out[i].emotion = some (translate_emotion s) := by
  rcases mergeLabels_ok_elim h with ⟨emos, he, rfl⟩
  have hel : emos.length = df_en.length := by
    rw [mapExcept_ok_length he]
    simp
  have hie : i < emos.length := by rw [hel]; exact hi
  have hies : i < df_es.length := by rw [← hlen]; exact hi
  have hit : i < ((df_en.map Row.theme).map translate_themes).length := by
    simpa using hi
  rw [applyCols_getElem hies hie hit hio]
  have hcell := mapExcept_ok_getElem he i (by simpa using hi) hie
  rw [List.getElem_map, hs] at hcell
  have h1 : translate_emotion s = emos[i] := Except.ok.inj hcell
  simp [← h1]

theorem mergeLabels_getElem_theme {df_en df_es out : List Row}
    (hlen : df_en.length = df_es.length)
    (h : mergeLabels df_en df_es = .ok out) {i : Nat}
    (hi : i < df_en.length) (hio : i < out.length) :
    out[i].theme = some (translate_themes df_en[i].theme) := by
  rcases mergeLabels_ok_elim h with ⟨emos, he, rfl⟩
  have hel : emos.length = df_en.length := by
    rw [mapExcept_ok_length he]
    simp
  have hie : i < emos.length := by rw [hel]; exact hi
  have hies : i < df_es.length := by rw [← hlen]; exact hi
  have hit : i < ((df_en.map Row.theme).map translate_themes).length := by
    simpa using hi
  rw [applyCols_getElem hies hie hit hio]
  simp

theorem mergeLabels_getElem_frame {df_en df_es out : List Row}
    (hlen : df_en.length = df_es.length)
    (h : mergeLabels df_en df_es = .ok out) {i : Nat}
    (hie : i < df_es.length) (hio : i < out.length) :
    out[i].verse_id = df_es[i].verse_id ∧ out[i].chapter = df_es[i].chapter ∧
    out[i].verse = df_es[i].verse ∧ out[i].subtitle = df_es[i].subtitle ∧
    out[i].text = df_es[i].text ∧ out[i].source_url = df_es[i].source_url
    := by
  rcases mergeLabels_ok_elim h with ⟨emos, he, rfl⟩
  have hel : emos.length = df_en.length := by
    rw [mapExcept_ok_length he]
    simp
  have hi : i < df_en.length := by rw [hlen]; exact hie
  have hiem : i < emos.length := by rw [hel]; exact hi
  have hit : i < ((df_en.map Row.theme).map translate_themes).length := by
    simpa using hi
  rw [applyCols_getElem hie hiem hit hio]
  exact ⟨rfl, rfl, rfl, rfl, rfl, rfl⟩

/-- The merge body never reads the English verse text: rewriting every
English row's `text` field leaves the output unchanged. -/
theorem mergeLabels_text_invariant (df_en df_es : List Row)
    (g : Row → String) :
    mergeLabels (df_en.map fun r => { r with text := g r }) df_es =
      mergeLabels df_en df_es := by
  unfold mergeLabels
  have h1 : (df_en.map fun r => { r with text := g r }).map Row.emotion =
      df_en.map Row.emotion := by
    rw [List.map_map]
    rfl
  have h2 : (df_en.map fun r => { r with text := g r }).map Row.theme =
      df_en.map Row.theme := by
    rw [List.map_map]
    rfl
  rw [h1, h2]

/-! ### Lemmas on the translate-and-merge loop -/

/-- All emotion cells of a table are present (no `NaN`). -/
def emotionsPresent (df : List Row) : Bool :=
  df.all fun r => r.emotion.isSome

/-- The two checks of the loop body for a file: the corresponding
`_cleaned.csv` exists and the row counts agree. -/
def passesB (esProcessed : Dir) (name : String) (df_en : List Row) : Bool :=
  match dirRead esProcessed (esName name) with
  | none => false
  | some df_es => df_en.length = df_es.length

theorem mapOk {β γ : Type} (f : β → γ) (x : β) :
    (Except.ok x : Except Unit β).map f = .ok (f x) := rfl

theorem mapErr {β γ : Type} (f : β → γ) (e : Unit) :
    (Except.error e : Except Unit β).map f = .error e := rfl

theorem dirRead_dirWrite_self (d : Dir) (name : String) (t : List Row) :
    dirRead (dirWrite d name t) name = some t := by
  simp [dirWrite, dirRead]

theorem dirRead_dirWrite_ne {name n : String} (d : Dir) (t : List Row)
    (h : n ≠ name) : dirRead (dirWrite d name t) n = dirRead d n := by
  simp [dirWrite, dirRead, h]

theorem passesB_true_elim {esP : Dir} {name : String} {df_en : List Row}
    (hp : passesB esP name df_en = true) :
    ∃ df_es, dirRead esP (esName name) = some df_es ∧
      df_en.length = df_es.length := by
  unfold passesB at hp
  split at hp
  · exact Bool.noConfusion hp
  · rename_i df_es heq
    exact ⟨df_es, heq, by simpa using hp⟩

theorem passesB_false_elim {esP : Dir} {name : String} {df_en : List Row}
    (hp : passesB esP name df_en = false) :
    dirRead esP (esName name) = none ∨
      ∃ df_es, dirRead esP (esName name) = some df_es ∧
        df_en.length ≠ df_es.length := by
  unfold passesB at hp
  split at hp
  · rename_i heq
    exact Or.inl heq
  · rename_i df_es heq
    exact Or.inr ⟨df_es, heq, by simpa using hp⟩

theorem stepFile_eq_none {esP lab : Dir} {name : String} {df_en : List Row}
    (hr : dirRead esP (esName name) = none) :
    stepFile esP lab name df_en = .ok lab := by
  unfold stepFile
  rw [hr]

theorem stepFile_eq_mismatch {esP lab : Dir} {name : String}
    {df_en df_es : List Row} (hr : dirRead esP (esName name) = some df_es)
    (hl : df_en.length ≠ df_es.length) :
    stepFile esP lab name df_en = .ok lab := by
  unfold stepFile
  rw [hr]
  exact if_pos hl

theorem stepFile_eq_merge {esP lab : Dir} {name : String}
    {df_en df_es : List Row} (hr : dirRead esP (esName name) = some df_es)
    (hl : df_en.length = df_es.length) :
    stepFile esP lab name df_en =
      (mergeLabels df_en df_es) >>= fun out => .ok (dirWrite lab name out)
    := by
  unfold stepFile
  rw [hr]
  exact if_neg (by omega)

theorem stepFile_not_passes {esP lab : Dir} {name : String} {df_en : List Row}
    (h : passesB esP name df_en = false) :
    stepFile esP lab name df_en = .ok lab := by
  rcases passesB_false_elim h with hr | ⟨df_es, hr, hl⟩
  · exact stepFile_eq_none hr
  · exact stepFile_eq_mismatch hr hl

theorem stepFile_frame {esP lab lab1 : Dir} {name : String} {df_en : List Row}
    (h : stepFile esP lab name df_en = .ok lab1) {n : String} (hn : n ≠ name) :
    dirRead lab1 n = dirRead lab n := by
  rcases hb : passesB esP name df_en with _ | _
  · rw [stepFile_not_passes hb] at h
    injection h with h1
    rw [← h1]
  · rcases passesB_true_elim hb with ⟨df_es, hr, hl⟩
    rw [stepFile_eq_merge hr hl] at h
    rcases hm : mergeLabels df_en df_es with e | out <;> rw [hm] at h
    · rw [bindErr] at h
      exact Except.noConfusion h
    · rw [bindOk] at h
      injection h with h1
      rw [← h1, dirRead_dirWrite_ne _ _ hn]

theorem stepFile_mono {esP lab lab1 : Dir} {name : String} {df_en : List Row}
    (h : stepFile esP lab name df_en = .ok lab1) {n : String} {t : List Row}
    (hr : dirRead lab n = some t) : ∃ t', dirRead lab1 n = some t' := by
  rcases hb : passesB esP name df_en with _ | _
  · rw [stepFile_not_passes hb] at h
    injection h with h1
    exact ⟨t, by rw [← h1, hr]⟩
  · rcases passesB_true_elim hb with ⟨df_es, hre, hl⟩
    rw [stepFile_eq_merge hre hl] at h
    rcases hm : mergeLabels df_en df_es with e | out <;> rw [hm] at h
    · rw [bindErr] at h
      exact Except.noConfusion h
    · rw [bindOk] at h
      injection h with h1
      by_cases hnn : n = name
      · exact ⟨out, by rw [← h1, hnn, dirRead_dirWrite_self]⟩
      · exact ⟨t, by rw [← h1, dirRead_dirWrite_ne _ _ hnn, hr]⟩

theorem stepFile_writes {esP lab lab1 : Dir} {name : String} {df_en : List Row}
    (h : stepFile esP lab name df_en = .ok lab1)
    (hp : passesB esP name df_en = true) :
    ∃ out, dirRead lab1 name = some out := by
  rcases passesB_true_elim hp with ⟨df_es, hr, hl⟩
  rw [stepFile_eq_merge hr hl] at h
  rcases hm : mergeLabels df_en df_es with e | out <;> rw [hm] at h
  · rw [bindErr] at h
    exact Except.noConfusion h
  · rw [bindOk] at h
    injection h with h1
    exact ⟨out, by rw [← h1, dirRead_dirWrite_self]⟩

theorem stepFile_error_of_nan {esP lab : Dir} {name : String}
    {df_en : List Row} (hp : passesB esP name df_en = true)
    (hnan : none ∈ df_en.map Row.emotion) :
    stepFile esP lab name df_en = .error () := by
  rcases passesB_true_elim hp with ⟨df_es, hr, hl⟩
  rw [stepFile_eq_merge hr hl, mergeLabels, mapExcept_none_error hnan,
    bindErr, bindErr]

theorem stepFile_ok_of_present {esP lab : Dir} {name : String}
    {df_en : List Row} (hem : emotionsPresent df_en = true) :
    ∃ lab1, stepFile esP lab name df_en = .ok lab1 := by
  rcases hb : passesB esP name df_en with _ | _
  · exact ⟨lab, stepFile_not_passes hb⟩
  · rcases passesB_true_elim hb with ⟨df_es, hr, hl⟩
    have hall : ∀ x ∈ df_en.map Row.emotion, x.isSome := by
      intro x hx
      rcases List.mem_map.mp hx with ⟨r, hr', rfl⟩
      exact List.all_eq_true.mp hem r hr'
    rcases mapExcept_all_some hall with ⟨emos, hemos⟩
    refine ⟨dirWrite lab name
      (applyCols df_es emos ((df_en.map Row.theme).map translate_themes)),
      ?_⟩
    rw [stepFile_eq_merge hr hl, mergeLabels, hemos, bindOk, bindOk]

theorem runFiles_nil (esP : Dir) (lab : Dir) :
    runFiles esP [] lab = .ok lab := rfl

theorem runFiles_cons (esP : Dir) (name : String) (df_en : List Row)
    (rest : List (String × List Row)) (lab : Dir) :
    runFiles esP ((name, df_en) :: rest) lab =
      (stepFile esP lab name df_en) >>=
        fun lab1 => runFiles esP rest lab1 := rfl

theorem runFiles_ok_frame {esP : Dir} {files : List (String × List Row)}
    {lab lab' : Dir} (h : runFiles esP files lab = .ok lab') {n : String}
    (hn : ∀ p ∈ files, p.1 ≠ n) : dirRead lab' n = dirRead lab n := by
  induction files generalizing lab with
  | nil =>
    rw [runFiles_nil] at h
    injection h with h1
    rw [h1]
  | cons p rest ih =>
    rcases p with ⟨name, df_en⟩
    rw [runFiles_cons] at h
    rcases hs : stepFile esP lab name df_en with e | lab1 <;> rw [hs] at h
    · rw [bindErr] at h
      exact Except.noConfusion h
    · rw [bindOk] at h
      have hrest := ih h (fun p hp => hn p (List.mem_cons_of_mem _ hp))
      rw [hrest]
      exact stepFile_frame hs (fun he => hn (name, df_en) (by simp) he.symm)

theorem runFiles_mono {esP : Dir} {files : List (String × List Row)}
    {lab lab' : Dir} (h : runFiles esP files lab = .ok lab') {n : String}
    {t : List Row} (hr : dirRead lab n = some t) :
    ∃ t', dirRead lab' n = some t' := by
  induction files generalizing lab t with
  | nil =>
    rw [runFiles_nil] at h
    injection h with h1
    exact ⟨t, by rw [← h1, hr]⟩
  | cons p rest ih =>
    rcases p with ⟨name, df_en⟩
    rw [runFiles_cons] at h
    rcases hs : stepFile esP lab name df_en with e | lab1 <;> rw [hs] at h
    · rw [bindErr] at h
      exact Except.noConfusion h
    · rw [bindOk] at h
      rcases stepFile_mono hs hr with ⟨t1, ht1⟩
      exact ih h ht1

theorem runFiles_written {esP : Dir} {files : List (String × List Row)}
    {lab lab' : Dir} (h : runFiles esP files lab = .ok lab')
    {name : String} {df_en : List Row} (hmem : (name, df_en) ∈ files)
    (hp : passesB esP name df_en = true) :
    ∃ out, dirRead lab' name = some out := by
  induction files generalizing lab with
  | nil => simp at hmem
  | cons p rest ih =>
    rcases p with ⟨nm, df⟩
    rw [runFiles_cons] at h
    rcases hs : stepFile esP lab nm df with e | lab1 <;> rw [hs] at h
    · rw [bindErr] at h
      exact Except.noConfusion h
    · rw [bindOk] at h
      rcases List.mem_cons.mp hmem with heq | hmem'

      · have h1 : name = nm := congrArg Prod.fst heq
        have h2 : df_en = df := congrArg Prod.snd heq
        subst h1
        subst h2
        rcases stepFile_writes hs hp with ⟨out, hout⟩
        exact runFiles_mono h hout
      · exact ih h hmem'

theorem runFiles_skipped {esP : Dir} {files : List (String × List Row)}
    {lab lab' : Dir} (h : runFiles esP files lab = .ok lab') {n : String}
    (hall : ∀ df, (n, df) ∈ files → passesB esP n df = false) :
    dirRead lab' n = dirRead lab n := by
  induction files generalizing lab with
  | nil =>
    rw [runFiles_nil] at h
    injection h with h1
    rw [h1]
  | cons p rest ih =>
    rcases p with ⟨nm, df⟩
    rw [runFiles_cons] at h
    rcases hs : stepFile esP lab nm df with e | lab1 <;> rw [hs] at h
    · rw [bindErr] at h
      exact Except.noConfusion h
    · rw [bindOk] at h
      have hrest := ih h (fun df' hdf' => hall df' (List.mem_cons_of_mem _ hdf'))
      rw [hrest]
      by_cases hnn : n = nm
      · subst hnn
        have hnp := hall df (by simp)
        rw [stepFile_not_passes hnp] at hs
        injection hs with h1
        rw [← h1]
      · exact stepFile_frame hs hnn

theorem runFiles_all_ok {esP : Dir} {files : List (String × List Row)}
    (lab : Dir) (hem : ∀ p ∈ files, emotionsPresent p.2 = true) :
    ∃ lab', runFiles esP files lab = .ok lab' := by
  induction files generalizing lab with
  | nil => exact ⟨lab, rfl⟩
  | cons p rest ih =>
    rcases p with ⟨nm, df⟩
    rcases @stepFile_ok_of_present esP lab nm df (hem (nm, df) (by simp))
      with ⟨lab1, hs⟩
    rcases ih lab1 (fun p hp => hem p (List.mem_cons_of_mem _ hp))
      with ⟨lab', hrest⟩
    exact ⟨lab', by rw [runFiles_cons, hs, bindOk, hrest]⟩

theorem runFiles_error_of_nan {esP : Dir} {files : List (String × List Row)}
    (lab : Dir) {name : String} {df_en : List Row}
    (hmem : (name, df_en) ∈ files) (hp : passesB esP name df_en = true)
    (hnan : none ∈ df_en.map Row.emotion) :
    runFiles esP files lab = .error () := by
  induction files generalizing lab with
  | nil => simp at hmem
  | cons p rest ih =>
    rcases p with ⟨nm, df⟩
    rw [runFiles_cons]
    rcases List.mem_cons.mp hmem with heq | hmem'
    · have h1 : name = nm := congrArg Prod.fst heq
      have h2 : df_en = df := congrArg Prod.snd heq
      subst h1
      subst h2
      rw [stepFile_error_of_nan hp hnan, bindErr]
    · rcases hs : stepFile esP lab nm df with e | lab1
      · rw [bindErr]
      · rw [bindOk]
        exact ih lab1 hmem'

theorem runStep_ok_elim {fs : FS} {fs' : FS} (h : runStep fs = .ok fs') :
    fs'.enLabeled = fs.enLabeled ∧ fs'.esProcessed = fs.esProcessed ∧
    runFiles fs.esProcessed fs.enLabeled fs.esLabeled = .ok fs'.esLabeled
    := by
  unfold runStep at h
  rcases hr : runFiles fs.esProcessed fs.enLabeled fs.esLabeled with e | lab
    <;> rw [hr] at h
  · rw [mapErr] at h
    exact Except.noConfusion h
  · rw [mapOk] at h
    injection h with h1
    refine ⟨?_, ?_, ?_⟩ <;> rw [← h1]

theorem runStep_ok_intro {fs : FS} {lab : Dir}
    (h : runFiles fs.esProcessed fs.enLabeled fs.esLabeled = .ok lab) :
    runStep fs = .ok ⟨fs.enLabeled, fs.esProcessed, lab⟩ := by
  unfold runStep
  rw [h, mapOk]

theorem runStep_error_intro {fs : FS}
    (h : runFiles fs.esProcessed fs.enLabeled fs.esLabeled = .error ()) :
    runStep fs = .error () := by
  unfold runStep
  rw [h, mapErr]

/-! ### Spec-side definitions and fixtures for the claims -/

/-- The emotion translation as the spec claim words it: lookup of the
stripped, lowercased string in `EMOTION_MAP`, returning the original string
when the key is absent. -/
def specEmotionTranslation (s : String) : String :=
  match dictLookup EMOTION_MAP (pyLower (pyStrip s)) with
  | some v => v
  | none => s

/-- The theme translation as the spec claim words it: the `';'`-join of the
`THEME_MAP` translations of each stripped `';'`-separated token. -/
def specThemeTranslation (t : String) : String :=
  pyJoin ';' ((pySplit ';' t).map fun tok =>
    (dictLookup THEME_MAP (pyStrip tok)).getD (pyStrip tok))

theorem specEmotionTranslation_eq (s : String) :
    specEmotionTranslation s = translate_emotion s := by
  unfold specEmotionTranslation translate_emotion
  rcases dictLookup EMOTION_MAP (pyLower (pyStrip s)) with _ | v <;> rfl

theorem specThemeTranslation_eq (t : String) :
    specThemeTranslation t = translate_themes (some t) := rfl

/-- The classifier's emotion labels (`src/fine_tuning/prompt_gpt.txt`). -/
def CLASSIFIER_EMOTIONS : List String :=
  ["joy", "sadness", "anger", "fear", "disgust", "surprise", "neutral"]

/-- The fixed set of emotion labels the translation produces from the
classifier's labels: the Spanish values of `EMOTION_MAP` hit by them plus
the two classifier labels absent from the dictionary, which pass through
unchanged. -/
def TRANSLATED_EMOTION_LABELS : List String :=
  ["Alegría", "Tristeza", "Ira", "Miedo", "disgust", "Sorpresa", "neutral"]

/-- Modelled from the spec: `bible_scraper.py` itself is not in the source
tree; the repository README ("Example Output": verses "structured with
chapter, verse, subtitle, text and source URL") and CHANGELOG 0.1.0 ("CSV
output format including chapter, verse, subtitle, text, and source_url")
record the columns of every extracted verse row. -/
def scraperOutputColumns : List String :=
  ["chapter", "verse", "subtitle", "text", "source_url"]

/-- The verse-record fields exactly as the spec's glossary lists them. -/
def specVerseRecordFields : List String :=
  ["book", "chapter", "verse", "text", "source_url"]

/-- The tags of a theme field: its nonempty stripped `';'`-tokens (the
tokenisation the labeling notebook itself uses to explode the column). -/
def themeTags (t : String) : List String :=
  ((pySplit ';' t).map pyStrip).filter fun x => x ≠ ""

/-- A Spanish cleaned row (fixture). -/
def esRow : Row :=
  ⟨"genesis_1_1", 1, 1, "", "En el principio creó Dios", "es.url", none,
    none⟩

/-- A matching English labeled row (fixture). -/
def enRow : Row :=
  ⟨"genesis_1_1", 1, 1, "", "In the beginning God created", "en.url",
    some "joy", some "love; faith"⟩

/-- An English labeled row with a missing (`NaN`) emotion cell (fixture). -/
def enRowNaN : Row :=
  ⟨"genesis_1_2", 1, 2, "", "And the earth was without form", "en.url",
    none, some "hope"⟩

/-- An English labeled row with a missing (`NaN`) theme cell (fixture). -/
def enRowNoTheme : Row :=
  ⟨"genesis_1_1", 1, 1, "", "In the beginning God created", "en.url",
    some "joy", none⟩

/-- The merge output for `[enRow]` against `[esRow]` (fixture). -/
def outRowList : List Row :=
  [{ esRow with emotion := some "Alegría", theme := some "amor;fe" }]

/-- File-system fixture: one English labeled file with a matching Spanish
cleaned file of equal row count, all emotion cells present. -/
def fsGood : FS :=
  { enLabeled := [("1_genesis_emotion_theme.csv", [enRow])],
    esProcessed := [("1_genesis_cleaned.csv", [esRow])],
    esLabeled := [] }

/-- File-system fixture: the checks pass but the English emotion column has
a missing cell. -/
def fsNaN : FS :=
  { enLabeled := [("1_genesis_emotion_theme.csv", [enRowNaN])],
    esProcessed := [("1_genesis_cleaned.csv", [esRow])],
    esLabeled := [] }

/-- File-system fixture: the English file has a missing emotion cell but no
matching Spanish cleaned file exists, so the file is skipped. -/
def fsNaNSkipped : FS :=
  { enLabeled := [("1_genesis_emotion_theme.csv", [enRowNaN])],
    esProcessed := [],
    esLabeled := [] }

/-! ### The claims -/

/-- C1: for an English labeled table and a Spanish cleaned table with the
same number of rows, the merge produces a table in which, at every row index
i, the emotion field equals the dictionary translation of the English
emotion at row i (lookup of the stripped, lowercased string in EMOTION_MAP,
returning the original string when the key is absent) and the theme field
equals the ';'-join of the THEME_MAP translations of each stripped
';'-separated token of the English theme at row i; alignment is purely
positional (row i to row i). -/
theorem C1_positional_label_translation (df_en df_es out : List Row)
    (hlen : df_en.length = df_es.length)
    (hok : mergeLabels df_en df_es = .ok out) :
    out.length = df_es.length ∧
    ∀ i (hi : i < df_en.length) (hio : i < out.length),
      (∀ s, df_en[i].emotion = some s →
        out[i].emotion = some (specEmotionTranslation s)) ∧
      (∀ t, df_en[i].theme = some t →
        out[i].theme = some (specThemeTranslation t)) := by
  refine ⟨mergeLabels_length hlen hok, ?_⟩
  intro i hi hio
  constructor
  · intro s hs
    rw [specEmotionTranslation_eq]
    exact mergeLabels_getElem_emotion hlen hok hi hio hs
  · intro t ht
    rw [specThemeTranslation_eq]
    have hth := mergeLabels_getElem_theme hlen hok hi hio
    rw [ht] at hth
    exact hth

/-- C1 witness: the theorem applied to a concrete matched pair. -/
theorem C1_witness :
    [enRow].length = [esRow].length ∧
    mergeLabels [enRow] [esRow] = .ok outRowList ∧
    outRowList.length = [esRow].length :=
  ⟨rfl, rfl, (C1_positional_label_translation [enRow] [esRow] outRowList
    rfl rfl).1⟩

/-- C2 counterexample: the Spanish cleaned file exists and the row counts
match, yet no Spanish labeled output is written — the claimed
"if and only if" fails in the forward direction because the English emotion
column has a missing cell and the step aborts with an error before writing
anything. -/
theorem C2_counterexample :
    passesB fsNaN.esProcessed "1_genesis_emotion_theme.csv" [enRowNaN] = true
    ∧ runStep fsNaN = .error () := ⟨rfl, rfl⟩

/-- C2 (amended): provided every English emotion cell is present, the step
succeeds and, for each listed English file, an output with that file's name
exists in the Spanish labeled directory whenever the existence and row-count
checks pass, while every name for which all checks fail is left exactly as
it was (the file is skipped and processing continues). -/
theorem C2_output_iff_checks_pass (fs : FS)
    (hem : ∀ p ∈ fs.enLabeled, emotionsPresent p.2 = true) :
    ∃ fs', runStep fs = .ok fs' ∧
      (∀ name df_en, (name, df_en) ∈ fs.enLabeled →
        passesB fs.esProcessed name df_en = true →
        ∃ out, dirRead fs'.esLabeled name = some out) ∧
      (∀ n, (∀ df, (n, df) ∈ fs.enLabeled →
          passesB fs.esProcessed n df = false) →
        dirRead fs'.esLabeled n = dirRead fs.esLabeled n) := by
  rcases @runFiles_all_ok fs.esProcessed fs.enLabeled fs.esLabeled hem
    with ⟨lab, hlab⟩
  refine ⟨⟨fs.enLabeled, fs.esProcessed, lab⟩, runStep_ok_intro hlab, ?_, ?_⟩
  · intro name df_en hmem hp
    exact runFiles_written hlab hmem hp
  · intro n hall
    exact runFiles_skipped hlab hall

/-- C2 witness: the amended theorem applied to a concrete state. -/
theorem C2_witness :
    (∀ p ∈ fsGood.enLabeled, emotionsPresent p.2 = true) ∧
    (∃ fs', runStep fsGood = .ok fs' ∧
      (∀ name df_en, (name, df_en) ∈ fsGood.enLabeled →
        passesB fsGood.esProcessed name df_en = true →
        ∃ out, dirRead fs'.esLabeled name = some out) ∧
      (∀ n, (∀ df, (n, df) ∈ fsGood.enLabeled →
          passesB fsGood.esProcessed n df = false) →
        dirRead fs'.esLabeled n = dirRead fsGood.esLabeled n)) :=
  ⟨by decide, C2_output_iff_checks_pass fsGood (by decide)⟩

/-- C3 counterexample: `translate_emotion` is the identity on unknown
strings, so its output is not confined to any fixed finite label set — on
input "hello" it returns "hello", which is neither a classifier label nor a
dictionary value nor a member of the translated label set. -/
theorem C3_counterexample :
    translate_emotion "hello" = "hello" ∧
    "hello" ∉ CLASSIFIER_EMOTIONS ∧
    "hello" ∉ EMOTION_MAP.map Prod.snd ∧
    "hello" ∉ TRANSLATED_EMOTION_LABELS := by decide

/-- C3 (amended): `translate_emotion` returns either a Spanish value of
`EMOTION_MAP` or its input unchanged; in particular, on the classifier's
fixed seven-label set its outputs lie in the fixed seven-element set
`TRANSLATED_EMOTION_LABELS`. -/
theorem C3_translation_range (s : String) :
    ((∃ p ∈ EMOTION_MAP, translate_emotion s = p.2) ∨
      translate_emotion s = s) ∧
    (s ∈ CLASSIFIER_EMOTIONS →
      translate_emotion s ∈ TRANSLATED_EMOTION_LABELS) := by
  constructor
  · rcases h : dictLookup EMOTION_MAP (pyLower (pyStrip s)) with _ | v
    · right
      simp [translate_emotion, h]
    · left
      rcases dictLookup_mem h with ⟨k, hk⟩
      exact ⟨(k, v), hk, by simp [translate_emotion, h]⟩
  · intro hs
    fin_cases hs <;> decide

/-- C3 witness: the amended theorem applied to the classifier label "joy". -/
theorem C3_witness :
    translate_emotion "joy" ∈ TRANSLATED_EMOTION_LABELS :=
  (C3_translation_range "joy").2 (by decide)

/-- C4: for a matched pair of tables, the output equals the Spanish cleaned
table with only the emotion and theme columns replaced — every other column
(verse_id, chapter, verse, subtitle, text, source_url) of every row is
exactly that of the Spanish cleaned input, and the English verse text never
enters the computation (rewriting every English text field leaves the output
unchanged). -/
theorem C4_spanish_columns_preserved (df_en df_es out : List Row)
    (hlen : df_en.length = df_es.length)
    (hok : mergeLabels df_en df_es = .ok out) :
    (∀ g : Row → String,
      mergeLabels (df_en.map fun r => { r with text := g r }) df_es =
        mergeLabels df_en df_es) ∧
    out.length = df_es.length ∧
    ∀ i (hio : i < out.length) (hie : i < df_es.length),
      out[i].verse_id = df_es[i].verse_id ∧
      out[i].chapter = df_es[i].chapter ∧
      out[i].verse = df_es[i].verse ∧
      out[i].subtitle = df_es[i].subtitle ∧
      out[i].text = df_es[i].text ∧
      out[i].source_url = df_es[i].source_url := by
  refine ⟨fun g => mergeLabels_text_invariant df_en df_es g,
    mergeLabels_length hlen hok, ?_⟩
  intro i hio hie
  exact mergeLabels_getElem_frame hlen hok hie hio

/-- C4 witness: the theorem applied to a concrete matched pair; the output
row keeps the Spanish verse text. -/
theorem C4_witness :
    [enRow].length = [esRow].length ∧
    mergeLabels [enRow] [esRow] = .ok outRowList ∧
    outRowList[0].text = [esRow][0].text :=
  ⟨rfl, rfl, ((C4_spanish_columns_preserved [enRow] [esRow] outRowList
    rfl rfl).2.2 0 (by decide) (by decide)).2.2.2.2.1⟩

/-- C5 counterexample: a labeled output row whose theme field is the empty
string — it contains no tag at all, because the English theme cell was
missing and `translate_themes` maps `NaN` to `""`. -/
theorem C5_counterexample :
    mergeLabels [enRowNoTheme] [esRow] =
      .ok [{ esRow with emotion := some "Alegría", theme := some "" }] ∧
    themeTags "" = [] := ⟨rfl, rfl⟩

/-- C5 (amended): a theme field of a labeled output row contains at least
one tag provided the corresponding English theme cell is present and has at
least one token that is nonempty after stripping; when the English theme is
missing the output theme is the empty string and carries no tag. -/
theorem C5_theme_tags (df_en df_es out : List Row)
    (hlen : df_en.length = df_es.length)
    (hok : mergeLabels df_en df_es = .ok out)
    {i : Nat} (hi : i < df_en.length) (hio : i < out.length)
    {s tok : String} (hs : df_en[i].theme = some s)
    (htok : tok ∈ pySplit ';' s) (hne : pyStrip tok ≠ "") :
    out[i].theme = some (translate_themes (some s)) ∧
    themeTags (translate_themes (some s)) ≠ [] := by
  constructor
  · have hth := mergeLabels_getElem_theme hlen hok hi hio
    rw [hs] at hth
    exact hth
  · rw [translate_themes_some]
    unfold themeTags
    have hnil : (pySplit ';' s).map themeToken ≠ [] := by
      simpa using pySplit_ne_nil ';' s
    have hsep : ∀ x ∈ (pySplit ';' s).map themeToken, ';' ∉ x.data := by
      intro x hx
      rcases List.mem_map.mp hx with ⟨u, hu, rfl⟩
      exact themeToken_no_sep (pySplit_no_sep hu)
    rw [pySplit_pyJoin hnil hsep, List.map_map]
    have hstrip : (pySplit ';' s).map (pyStrip ∘ themeToken) =
        (pySplit ';' s).map themeToken := by
      refine List.map_congr_left ?_
      intro a _
      exact themeToken_strip a
    rw [hstrip]
    intro hempty
    have hmem : themeToken tok ∈ (pySplit ';' s).map themeToken :=
      List.mem_map_of_mem _ htok
    have hmf : themeToken tok ∈
        ((pySplit ';' s).map themeToken).filter fun x => x ≠ "" := by
      rw [List.mem_filter]
      exact ⟨hmem, by simpa using themeToken_ne_empty hne⟩
    rw [hempty] at hmf
    simp at hmf

/-- C5 witness: the amended theorem applied to a concrete row whose English
theme is "love; faith". -/
theorem C5_witness :
    mergeLabels [enRow] [esRow] = .ok outRowList ∧
    themeTags (translate_themes (some "love; faith")) ≠ [] :=
  ⟨rfl, (@C5_theme_tags [enRow] [esRow] outRowList rfl rfl 0 (by decide)
    (by decide) "love; faith" "love" rfl (by decide) (by decide)).2⟩

/-- C6 counterexample: the repository's own description of the extracted
verse rows does not match the spec's glossary — there is no book field and
there is a subtitle field the glossary omits. -/
theorem C6_counterexample :
    scraperOutputColumns ≠ specVerseRecordFields ∧
    "book" ∉ scraperOutputColumns ∧
    "subtitle" ∈ scraperOutputColumns ∧
    "subtitle" ∉ specVerseRecordFields := by decide

/-- C6 (amended): every verse record extracted from a Bible source is a row
with exactly the five distinct fields chapter, verse, subtitle, text,
source_url. -/
theorem C6_verse_record_fields :
    scraperOutputColumns =
      ["chapter", "verse", "subtitle", "text", "source_url"] ∧
    scraperOutputColumns.Nodup ∧ scraperOutputColumns.length = 5 := by
  decide

/-- C7: the label-translation step is a deterministic function of its input
state (the three directories) and the fixed dictionaries — two runs on the
same state produce the same result; nothing else enters the computation. -/
theorem C7_deterministic (fs : FS) (o1 o2 : Except Unit FS)
    (h1 : runStep fs = o1) (h2 : runStep fs = o2) : o1 = o2 := by
  rw [← h1, ← h2]

/-- C7 witness: the theorem applied to a concrete state. -/
theorem C7_witness : runStep fsGood = runStep fsGood :=
  C7_deterministic fsGood (runStep fsGood) (runStep fsGood) rfl rfl

/-- C8: the stage wiring of the translation step — its English input
directory is the labeler output `data/labeled/bible_kjv/emotion_theme`, its
Spanish text input directory is the cleaner output
`data/processed/bible_rv60`, its output directory is
`data/labeled/bible_rv60/emotion_theme`; a successful run leaves both input
directories untouched and writes only files named after the listed English
labeled files. -/
theorem C8_pipeline_wiring (fs fs' : FS) (h : runStep fs = .ok fs') :
    EN_LABELED_DIR = "data/labeled/bible_kjv/emotion_theme" ∧
    ES_PROCESSED_DIR = "data/processed/bible_rv60" ∧
    ES_OUTPUT_DIR = "data/labeled/bible_rv60/emotion_theme" ∧
    fs'.enLabeled = fs.enLabeled ∧
    fs'.esProcessed = fs.esProcessed ∧
    ∀ n, (∀ p ∈ fs.enLabeled, p.1 ≠ n) →
      dirRead fs'.esLabeled n = dirRead fs.esLabeled n := by
  rcases runStep_ok_elim h with ⟨h1, h2, h3⟩
  refine ⟨rfl, rfl, rfl, h1, h2, ?_⟩
  intro n hn
  exact runFiles_ok_frame h3 hn

/-- The result state of `runStep` on `fsGood` (fixture). -/
def fsGoodOut : FS :=
  ⟨fsGood.enLabeled, fsGood.esProcessed,
    [("1_genesis_emotion_theme.csv", outRowList)]⟩

/-- C8 witness: the theorem applied to a concrete run. -/
theorem C8_witness :
    runStep fsGood = .ok fsGoodOut ∧
    fsGoodOut.enLabeled = fsGood.enLabeled :=
  ⟨rfl, (C8_pipeline_wiring fsGood fsGoodOut rfl).2.2.2.1⟩

/-- C9: both translation functions are idempotent — applying
`translate_emotion` twice equals applying it once, and likewise for
`translate_themes` on any present (non-`NaN`) theme string, because no
Spanish value of either dictionary is itself a key of that dictionary after
normalization. -/
theorem C9_translation_idempotent :
    (∀ s : String,
      translate_emotion (translate_emotion s) = translate_emotion s) ∧
    (∀ s : String,
      translate_themes (some (translate_themes (some s))) =
        translate_themes (some s)) :=
  ⟨translate_emotion_idem, translate_themes_idem⟩

/-- C10 counterexample: an English labeled file whose emotion column
contains an empty cell on which the step does not fail — the matching
Spanish cleaned file is missing, so the file is skipped before any emotion
cell is touched and the run ends successfully. -/
theorem C10_counterexample :
    enRowNaN.emotion = none ∧
    runStep fsNaNSkipped =
      .ok ⟨fsNaNSkipped.enLabeled, fsNaNSkipped.esProcessed, []⟩ :=
  ⟨rfl, rfl⟩

/-- C10 (amended): the two translation functions handle missing values
asymmetrically — `translate_themes` maps a missing theme to the empty
string while `translate_emotion` applied to a missing emotion cell raises —
so the step fails on any English labeled file that passes the existence and
row-count checks and whose emotion column contains an empty cell. -/
theorem C10_nan_asymmetry (fs : FS) (name : String) (df_en : List Row)
    (hmem : (name, df_en) ∈ fs.enLabeled)
    (hp : passesB fs.esProcessed name df_en = true)
    {r : Row} (hr : r ∈ df_en) (hnan : r.emotion = none) :
    translate_themes none = "" ∧
    translate_emotion_cell none = .error () ∧
    runStep fs = .error () := by
  refine ⟨rfl, rfl, ?_⟩
  apply runStep_error_intro
  apply runFiles_error_of_nan fs.esLabeled hmem hp
  rw [← hnan]
  exact List.mem_map_of_mem _ hr

/-- C10 witness: the amended theorem applied to a concrete state whose one
English file passes the checks and has a missing emotion cell. -/
theorem C10_witness :
    ("1_genesis_emotion_theme.csv", [enRowNaN]) ∈ fsNaN.enLabeled ∧
    runStep fsNaN = .error () :=
  ⟨by decide, (@C10_nan_asymmetry fsNaN "1_genesis_emotion_theme.csv"
    [enRowNaN] (by decide) rfl enRowNaN (by decide) rfl).2.2⟩

end LinguaAnimae
